import Mathlib

/-!
Verification development for the session-key message core of gopenpgp
(crypto/sessionkey.go and internal.CanonicalizeAndTrim).

Shallow embedding conventions:
  - byte slices are lists of naturals;
  - the external go-crypto packet layer (SerializeSymmetricallyEncrypted,
    SerializeLiteral, openpgp.Sign, openpgp.ReadMessage,
    SymmetricallyEncrypted.Decrypt) is modelled at its documented interface:
    an encrypted data packet records the cipher and key it was sealed with,
    and decryption succeeds exactly when the same cipher and key are
    presented and the key has the size the cipher demands;
  - fallible Go functions returning (value, error) become Except, and
    the dual-return of DecryptAndVerify, where a plaintext can ride
    alongside a non-nil error, becomes an explicit pair of options;
  - randomness and the wall clock are passed in as parameters.
-/

namespace Gopenpgp

/-- Byte slices are modelled as lists of naturals. -/
abbrev Bytes := List Nat

/-! ## Cipher registry (constants package and go-crypto cipher identifiers) -/

namespace constants

def ThreeDES : String := "3des"

def TripleDES : String := "tripledes"

def CAST5 : String := "cast5"

def AES128 : String := "aes128"

def AES192 : String := "aes192"

def AES256 : String := "aes256"

/-- Compression algorithm identifier used by EncryptWithCompression (ZLIB). -/
def DefaultCompression : Nat := 2

end constants

/-- Cipher function identifiers are single bytes (packet.CipherFunction is a
uint8 in go-crypto); values outside the known set are representable. -/
abbrev CipherFunction := Nat

def Cipher3DES : CipherFunction := 2

def CipherCAST5 : CipherFunction := 3

def CipherAES128 : CipherFunction := 7

def CipherAES192 : CipherFunction := 8

def CipherAES256 : CipherFunction := 9

/-- Key size in bytes of each cipher function, 0 for unknown identifiers,
as in go-crypto packet.CipherFunction.KeySize. -/
def CipherFunction.KeySize (c : CipherFunction) : Nat :=
  if c = Cipher3DES then 24
  else if c = CipherCAST5 then 16
  else if c = CipherAES128 then 16
  else if c = CipherAES192 then 24
  else if c = CipherAES256 then 32
  else 0

/-- The symKeyAlgos map of sessionkey.go, as an association list. Go map
iteration order is unspecified; lookups by name are order-independent
because the six names are distinct. -/
def symKeyAlgos : List (String × CipherFunction) :=
  [(constants.ThreeDES, Cipher3DES),
   (constants.TripleDES, Cipher3DES),
   (constants.CAST5, CipherCAST5),
   (constants.AES128, CipherAES128),
   (constants.AES192, CipherAES192),
   (constants.AES256, CipherAES256)]

/-- Go map lookup symKeyAlgos[algo]. -/
def lookupAlgo (algo : String) : Option CipherFunction :=
  symKeyAlgos.lookup algo

/-! ## SessionKey -/

/-- SessionKey stores a decrypted session key (sessionkey.go). -/
structure SessionKey where
  Key : Bytes
  Algo : String
deriving DecidableEq, Repr

/-- GetCipherFunc returns the cipher function corresponding to the
algorithm used with this SessionKey. -/
def SessionKey.GetCipherFunc (sk : SessionKey) : Except String CipherFunction :=
  match lookupAlgo sk.Algo with
  | some cf => .ok cf
  | none => .error ("gopenpgp: unsupported cipher function: " ++ sk.Algo)

/-- GetBase64Key returns the session key encoded in base64; modelled
abstractly as the identity on the underlying bytes paired with no
semantic change (the claims do not touch the encoding itself). -/
def SessionKey.GetBase64Key (sk : SessionKey) : Bytes :=
  sk.Key

/-- RandomToken generates a random token with the specified key size: it
fills a buffer of that size from the random source (io.ReadFull either
fills the whole buffer or errors; the model takes the source as a
function and represents the successful path). -/
def RandomToken (random : Nat → Nat) (size : Nat) : Bytes :=
  (List.range size).map random

/-- GenerateSessionKeyAlgo generates a random key of the correct length
for the specified algorithm. -/
def GenerateSessionKeyAlgo (random : Nat → Nat) (algo : String) :
    Except String SessionKey :=
  match lookupAlgo algo with
  | none => .error "gopenpgp: unknown symmetric key generation algorithm"
  | some cf => .ok { Key := RandomToken random cf.KeySize, Algo := algo }

/-- GenerateSessionKey generates a random key for the default cipher. -/
def GenerateSessionKey (random : Nat → Nat) : Except String SessionKey :=
  GenerateSessionKeyAlgo random constants.AES256

/-- NewSessionKeyFromToken wraps token bytes with an algorithm tag; the
Go code clones the token bytes, which at the level of immutable values
keeps them unchanged (the aliasing aspect is modelled separately on an
explicit heap below). Construction is total: no validation happens here. -/
def NewSessionKeyFromToken (token : Bytes) (algo : String) : SessionKey :=
  { Key := token, Algo := algo }

/-- Method checkSize of SessionKey: explicit key-length validation
against the registry. -/
def SessionKey.checkSize (sk : SessionKey) : Except String Unit :=
  match lookupAlgo sk.Algo with
  | none => .error "unknown symmetric key algorithm"
  | some cf =>
    if cf.KeySize = sk.Key.length then .ok ()
    else .error "wrong session key size"

/-- Reverse lookup getAlgo of sessionkey.go: scan the registry for a name
mapping to the given cipher identifier, defaulting to AES-256. Go iterates
the map in unspecified order; for identifiers with at most one matching
name (all but 3DES) and for identifiers with no matching name the order is
irrelevant. -/
def getAlgo (cipher : CipherFunction) : String :=
  match symKeyAlgos.find? (fun kv => kv.2 = cipher) with
  | some kv => kv.1
  | none => constants.AES256

/-! ## Plain messages, entities, key rings -/

/-- PlainMessage: content bytes, text flag, filename hint and
modification-time hint. -/
structure PlainMessage where
  Data : Bytes
  TextType : Bool
  Filename : String
  Time : Nat
deriving DecidableEq, Repr

/-- Method IsBinary of PlainMessage. -/
def PlainMessage.IsBinary (m : PlainMessage) : Bool :=
  !m.TextType

/-- Method GetBinary of PlainMessage returns the raw content. -/
def PlainMessage.GetBinary (m : PlainMessage) : Bytes :=
  m.Data

/-- An openpgp entity, reduced to the fields the session-key paths read:
its key identity and whether usable private signing material is present. -/
structure Entity where
  keyId : Nat
  hasPrivateKey : Bool
deriving DecidableEq, Repr

/-- KeyRing holds a list of entities. -/
structure KeyRing where
  entities : List Entity
deriving DecidableEq, Repr

/-! ## Wire model of the packet layer

The external go-crypto writers and readers are modelled at their
interface. An inner (decrypted) message is the nesting the writer chain
produces: a literal-data layer, optionally wrapped by a one-pass
signature layer, optionally wrapped by compression. A signature records
the signing key, the creation time and the bytes over which its hash was
computed; the signedMsg node additionally records the bytes that flow
through the literal layer it wraps, so that what a signature covers is
visible in the model. -/

/-- Metadata carried by the literal-data packet. -/
structure LiteralData where
  IsBinary : Bool
  FileName : String
  Time : Nat
deriving DecidableEq, Repr

/-- A signature object: signer identity, creation time, and the bytes the
signature hash was computed over (the abstraction of the hash). -/
structure SigInfo where
  signerKeyId : Nat
  creationTime : Int
  signedData : Bytes
deriving DecidableEq, Repr

/-- The decrypted byte stream handed to openpgp.ReadMessage, viewed
structurally. The covered field of signedMsg is the byte sequence the
reader feeds to the verification hash (the literal body it wraps);
malformed stands for a stream ReadMessage rejects. -/
inductive InnerMessage where
  | lit (meta_ : LiteralData) (data : Bytes)
  | compressed (inner : InnerMessage)
  | signedMsg (sig : SigInfo) (covered : Bytes) (inner : InnerMessage)
  | malformed
deriving DecidableEq, Repr

/-- A packet of the outer (encrypted-message) sequence: a symmetrically
encrypted data packet records the cipher and key it was sealed with and
its decrypted contents; any other packet kind is represented by its tag. -/
inductive Packet where
  | symEnc (cipher : CipherFunction) (key : Bytes) (contents : InnerMessage)
  | otherPacket (tag : Nat)
deriving DecidableEq, Repr

/-- Decryption of a SymmetricallyEncrypted packet, at the interface go-crypto
documents: cipher setup rejects a key whose length does not match the
cipher, and decryption succeeds exactly when the presented cipher and key
are the ones the packet was sealed with (wrong key or corrupted data is
an integrity failure). -/
def symEncDecrypt (cipher : CipherFunction) (key : Bytes)
    (pkCipher : CipherFunction) (pkKey : Bytes) (contents : InnerMessage) :
    Except String InnerMessage :=
  if key.length ≠ CipherFunction.KeySize cipher then
    .error "invalid key size"
  else if pkCipher = cipher ∧ pkKey = key then
    .ok contents
  else
    .error "integrity check failed"

/-- MessageDetails as surfaced by openpgp.ReadMessage: literal metadata,
the body bytes, the embedded signature with the bytes its hash covers (if
any), and the entity of the key ring that matches the signer (if any). -/
structure MessageDetails where
  LiteralData : LiteralData
  UnverifiedBody : Bytes
  sig : Option (SigInfo × Bytes)
  SignedBy : Option Entity
deriving DecidableEq, Repr

/-- ReadMessage at its interface: transparently undo compression, surface
the literal-data body plus any embedded signature metadata, and resolve
the signer against the supplied key ring. -/
def ReadMessage (keyring : List Entity) : InnerMessage →
    Except String MessageDetails
  | .lit m d => .ok { LiteralData := m, UnverifiedBody := d, sig := none, SignedBy := none }
  | .compressed inner => ReadMessage keyring inner
  | .signedMsg s cov inner => do
    let md ← ReadMessage keyring inner
    .ok { md with
          sig := some (s, cov),
          SignedBy := keyring.find? (fun e => e.keyId = s.signerKeyId) }
  | .malformed => .error "gopenpgp: unable to decode symmetric packet"

/-! ## Signature status (spec-modelled verification helpers)

The functions processSignatureExpiration and verifyDetailsSignature live
in the crypto package but outside the available source files; they are
modelled from the specification of the explicit-verification decryptor:
the status is not-signed when no signature is present, no-verifier when
no key in the ring matches the signer, failed when a matching key is
found but the hash comparison fails or the creation time falls outside
the clock-skew-tolerant window, and verified otherwise; every status
other than verified is reported as a SignatureVerificationError value. -/

/-- Signature status constants. -/
inductive SigStatus where
  | verified
  | notSigned
  | noVerifier
  | failed
deriving DecidableEq, Repr

/-- SignatureVerificationError carries a non-verified status alongside a
successfully decrypted plaintext. -/
structure SignatureVerificationError where
  Status : SigStatus
deriving DecidableEq, Repr

/-- CreationTimeOffset of the internal package: the number of seconds a
signature may be created in the future, to compensate for clock skew. -/
def CreationTimeOffset : Int := 60 * 60 * 24 * 2

/-- Modelled from the spec: the timestamp acceptance rule of the
explicit-verification decryptor (crypto package, not among the available
source files). With time checking disabled (check time 0) every creation
time passes; otherwise a signature may be created at most
CreationTimeOffset seconds after the check time. -/
def creationTimeAcceptable (creationTime : Int) (verifyTime : Int) : Bool :=
  verifyTime = 0 ∨ creationTime ≤ verifyTime + CreationTimeOffset

/-- Modelled from the spec: verifyDetailsSignature combined with
processSignatureExpiration (crypto package, not among the available
source files), deciding the signature status of decrypted message
details against a verification key ring and check time. -/
def verifyDetailsSignature (md : MessageDetails) (verifyTime : Int) :
    Option SignatureVerificationError :=
  match md.sig with
  | none => some { Status := .notSigned }
  | some (s, cov) =>
    match md.SignedBy with
    | none => some { Status := .noVerifier }
    | some _ =>
      if s.signedData = cov ∧ creationTimeAcceptable s.creationTime verifyTime then
        none
      else
        some { Status := .failed }

/-! ## Encrypt direction -/

/-- The slice of packet.Config the session-key paths read: signature
creation time, chosen cipher, chosen compression algorithm (0 meaning
CompressionNone). -/
structure Config where
  Time : Int
  DefaultCipher : CipherFunction
  DefaultCompressionAlgo : Nat
deriving DecidableEq, Repr

/-- Method Cipher of Config: the configured cipher, defaulting to AES-128
when unset, as in go-crypto. -/
def Config.Cipher (c : Config) : CipherFunction :=
  if c.DefaultCipher = 0 then CipherAES128 else c.DefaultCipher

/-- Method Compression of Config. -/
def Config.Compression (c : Config) : Nat :=
  c.DefaultCompressionAlgo

/-- The writer chain built by encryptStreamWithSessionKey, recorded
declaratively: which layers were stacked, in which configuration. The
stacking order of the source is symmetric encryption outermost, then
optional compression, then either the signing layer wrapping the literal
layer or the literal layer alone. -/
structure EncryptChain where
  cipher : CipherFunction
  key : Bytes
  compressed : Bool
  signer : Option Entity
  isBinary : Bool
  filename : String
  modTime : Nat
  sigTime : Int
deriving DecidableEq, Repr

/-- The encryptStreamWithSessionKey function of sessionkey.go: set up the
symmetric-encryption writer (cipher setup rejects a key of the wrong
length for the configured cipher), stack a compression writer when the
configuration asks for one, then either an openpgp.Sign writer (which
fails when the signing entity has no usable private key) or a literal
writer. -/
def encryptStreamWithSessionKey (isBinary : Bool) (filename : String)
    (modTime : Nat) (sk : SessionKey) (signEntity : Option Entity)
    (config : Config) : Except String EncryptChain :=
  if sk.Key.length ≠ CipherFunction.KeySize config.Cipher then
    .error "gopenpgp: unable to encrypt"
  else
    match signEntity with
    | some e =>
      if e.hasPrivateKey then
        .ok { cipher := config.Cipher, key := sk.Key,
              compressed := config.Compression != 0, signer := some e,
              isBinary := isBinary, filename := filename,
              modTime := modTime, sigTime := config.Time }
      else
        .error "gopenpgp: unable to sign"
    | none =>
      .ok { cipher := config.Cipher, key := sk.Key,
            compressed := config.Compression != 0, signer := none,
            isBinary := isBinary, filename := filename,
            modTime := modTime, sigTime := config.Time }

/-- Writing the plaintext bytes through the chain and closing it, outer
writer last: the literal layer carries the data; when a signer is present
the bytes stream through the signing writer before the literal writer,
so the produced signature covers exactly those bytes; compression and
encryption wrap the result. The output buffer holds one symmetrically
encrypted packet. -/
def EncryptChain.writeAndClose (c : EncryptChain) (data : Bytes) : List Packet :=
  let litLayer := InnerMessage.lit
    { IsBinary := c.isBinary, FileName := c.filename, Time := c.modTime } data
  let signedLayer :=
    match c.signer with
    | some e =>
      InnerMessage.signedMsg
        { signerKeyId := e.keyId, creationTime := c.sigTime, signedData := data }
        data litLayer
    | none => litLayer
  let compLayer :=
    if c.compressed then InnerMessage.compressed signedLayer else signedLayer
  [Packet.symEnc c.cipher c.key compLayer]

/-- The encryptWithSessionKey function of sessionkey.go: build the writer
chain, write the message bytes through it (through the signing writer
when present, directly to the encryption chain otherwise) and close it. -/
def encryptWithSessionKey (message : PlainMessage) (sk : SessionKey)
    (signEntity : Option Entity) (config : Config) :
    Except String (List Packet) :=
  match encryptStreamWithSessionKey message.IsBinary message.Filename
      message.Time sk signEntity config with
  | .error e => .error e
  | .ok chain => .ok (chain.writeAndClose message.GetBinary)

/-- Method Encrypt of SessionKey: derive the cipher from the algorithm
tag and encrypt without signing and without compression. The wall-clock
time of getTimeGenerator is a parameter. -/
def SessionKey.Encrypt (sk : SessionKey) (t : Int) (message : PlainMessage) :
    Except String (List Packet) :=
  match sk.GetCipherFunc with
  | .error _ => .error "gopenpgp: unable to encrypt with session key"
  | .ok dc =>
    encryptWithSessionKey message sk none
      { Time := t, DefaultCipher := dc, DefaultCompressionAlgo := 0 }

/-- Modelled from the spec: getSigningEntity of KeyRing (crypto package,
not among the available source files) selects a signing identity holding
usable private key material and fails with a no-signing-key error
otherwise; first match wins. -/
def KeyRing.getSigningEntity (kr : KeyRing) : Except String Entity :=
  match kr.entities.find? (fun e => e.hasPrivateKey) with
  | some e => .ok e
  | none => .error "gopenpgp: no private key capable of signing"

/-- Method EncryptAndSign of SessionKey: as Encrypt, with the signing
entity taken from the given key ring. -/
def SessionKey.EncryptAndSign (sk : SessionKey) (t : Int)
    (message : PlainMessage) (signKeyRing : KeyRing) :
    Except String (List Packet) :=
  match sk.GetCipherFunc with
  | .error _ => .error "gopenpgp: unable to encrypt with session key"
  | .ok dc =>
    match signKeyRing.getSigningEntity with
    | .error _ => .error "gopenpgp: unable to sign"
    | .ok signEntity =>
      encryptWithSessionKey message sk (some signEntity)
        { Time := t, DefaultCipher := dc, DefaultCompressionAlgo := 0 }

/-- Method EncryptWithCompression of SessionKey: as Encrypt, with the
default compression algorithm configured. -/
def SessionKey.EncryptWithCompression (sk : SessionKey) (t : Int)
    (message : PlainMessage) : Except String (List Packet) :=
  match sk.GetCipherFunc with
  | .error _ => .error "gopenpgp: unable to encrypt with session key"
  | .ok dc =>
    encryptWithSessionKey message sk none
      { Time := t, DefaultCipher := dc,
        DefaultCompressionAlgo := constants.DefaultCompression }

/-! ## Decrypt direction -/

/-- The fatal failure kinds of the decrypt path, in the order the source
can hit them. -/
inductive DecErr where
  | readPacket
  | invalidPacketType
  | unsupportedCipher
  | decryptFailed
  | readMessage
deriving DecidableEq, Repr

/-- The error component of the dual return of DecryptAndVerify: either a
fatal decryption error or a non-fatal signature-status error. -/
inductive GoError where
  | decErr (e : DecErr)
  | sigErr (e : SignatureVerificationError)
deriving DecidableEq, Repr

/-- The decryptStreamWithSessionKey function of sessionkey.go: read the
first packet (failure when there is none), require it to be a
symmetrically encrypted data packet, decrypt it with the cipher implied
by the algorithm tag, and hand the decrypted stream to
openpgp.ReadMessage with the verification key ring (or an empty ring). -/
def decryptStreamWithSessionKey (sk : SessionKey)
    (messageReader : List Packet) (verifyKeyRing : Option KeyRing) :
    Except DecErr MessageDetails :=
  match messageReader with
  | [] => .error .readPacket
  | p :: _ =>
    match p with
    | .symEnc c k contents =>
      match sk.GetCipherFunc with
      | .error _ => .error .unsupportedCipher
      | .ok dc =>
        match symEncDecrypt dc sk.Key c k contents with
        | .error _ => .error .decryptFailed
        | .ok decrypted =>
          let keyring : List Entity :=
            match verifyKeyRing with
            | some kr => kr.entities
            | none => []
          match ReadMessage keyring decrypted with
          | .error _ => .error .readMessage
          | .ok md => .ok md
    | .otherPacket _ => .error .invalidPacketType

/-- Method DecryptAndVerify of SessionKey: decrypt, read the whole body,
then, only when a verification key ring was supplied, compute the
signature status; the plaintext assembled from the literal-data layer is
returned in either case, next to the (possibly non-nil) status error. -/
def SessionKey.DecryptAndVerify (sk : SessionKey) (dataPacket : List Packet)
    (verifyKeyRing : Option KeyRing) (verifyTime : Int) :
    Option PlainMessage × Option GoError :=
  match decryptStreamWithSessionKey sk dataPacket verifyKeyRing with
  | .error e => (none, some (.decErr e))
  | .ok md =>
    let err : Option GoError :=
      match verifyKeyRing with
      | some _ => (verifyDetailsSignature md verifyTime).map .sigErr
      | none => none
    (some { Data := md.UnverifiedBody,
            TextType := !md.LiteralData.IsBinary,
            Filename := md.LiteralData.FileName,
            Time := md.LiteralData.Time }, err)

/-- Method Decrypt of SessionKey: DecryptAndVerify with no verification
key ring and time checking disabled. -/
def SessionKey.Decrypt (sk : SessionKey) (dataPacket : List Packet) :
    Option PlainMessage × Option GoError :=
  sk.DecryptAndVerify dataPacket none 0

/-! ## Canonicalizer (internal.CanonicalizeAndTrim)

Text is modelled as a list of characters. The source function is
translated clause by clause: strings.Split on the line-feed character,
strings.TrimRight with the cutset of space, tab and carriage return on
each line, strings.Join with CRLF. A second set of definitions, built
from the independent library primitives splitOn, dropWhile and
intercalate, phrases the three-step reference description of the
specification; the equality of the two is the subject of the
corresponding claim. -/

/-- Membership in the TrimRight cutset of space, tab and carriage return. -/
def isTrimChar (c : Char) : Bool :=
  c == ' ' || c == '\t' || c == '\r'

/-- The strings.TrimRight call of CanonicalizeAndTrim: remove trailing
cutset characters, scanning structurally (a character is kept when
anything after it survives). -/
def trimRightGo : List Char → List Char
  | [] => []
  | c :: cs =>
    match trimRightGo cs with
    | [] => if isTrimChar c then [] else [c]
    | r => c :: r

/-- The strings.Split call of CanonicalizeAndTrim: split on every
line-feed character, keeping empty segments. -/
def splitLF : List Char → List (List Char)
  | [] => [[]]
  | c :: cs =>
    match splitLF cs with
    | [] => [[]]
    | l :: ls => if c = '\n' then [] :: l :: ls else (c :: l) :: ls

/-- The strings.Join call of CanonicalizeAndTrim: interleave CRLF between
the segments. -/
def joinCRLF : List (List Char) → List Char
  | [] => []
  | [l] => l
  | l :: ls => l ++ '\r' :: '\n' :: joinCRLF ls

/-- CanonicalizeAndTrim of the internal package: split the text on
line-feed boundaries, strip trailing spaces, tabs and carriage returns
from each line, rejoin with CRLF. -/
def CanonicalizeAndTrim (text : List Char) : List Char :=
  joinCRLF ((splitLF text).map trimRightGo)

/-- Stripping trailing cutset characters, phrased with the library
primitives: reverse, drop the cutset prefix, reverse back. -/
def trimRightSpec (l : List Char) : List Char :=
  (l.reverse.dropWhile isTrimChar).reverse

/-- The three-step reference canonicalizer phrased with the library
primitives splitOn and intercalate. -/
def canonicalizeSpec (text : List Char) : List Char :=
  List.intercalate ['\r', '\n'] ((text.splitOn '\n').map trimRightSpec)

/-! ## Heap model for the token-cloning frame property

Go slices alias a backing buffer; to state that NewSessionKeyFromToken
is insulated from later writes to the caller's slice, slices are
modelled as addresses into an explicit heap of buffers. -/

/-- A heap of byte buffers; an address is an index. -/
abbrev Heap := List Bytes

/-- Reading the buffer at an address (empty when the address is unallocated). -/
def readSlice (h : Heap) (a : Nat) : Bytes :=
  h.getD a []

/-- Overwriting the buffer at an address, the model of a caller mutating
its slice in place. -/
def writeSlice (h : Heap) (a : Nat) (v : Bytes) : Heap :=
  h.set a v

/-- Modelled from the spec: the clone helper of the crypto package (not
among the available source files) allocates a fresh buffer and copies
the contents of its argument into it. -/
def cloneH (h : Heap) (a : Nat) : Heap × Nat :=
  (h ++ [readSlice h a], h.length)

/-- A session key holding an address into the heap in place of its key
bytes, for the aliasing-sensitive reading of NewSessionKeyFromToken. -/
structure SessionKeyRef where
  KeyAddr : Nat
  Algo : String
deriving DecidableEq, Repr

/-- NewSessionKeyFromToken on the explicit heap: clone the token buffer
and store the fresh address. -/
def NewSessionKeyFromTokenH (h : Heap) (tokenAddr : Nat) (algo : String) :
    Heap × SessionKeyRef :=
  let hc := cloneH h tokenAddr
  (hc.1, { KeyAddr := hc.2, Algo := algo })

/-! ## Reference definition for the plain decrypt (refinement target) -/

/-- Modelled from the spec: the plain decrypt described in the
specification, written independently of DecryptAndVerify: parse the
first packet, require a symmetric-encryption packet, decrypt it with the
cipher implied by the algorithm tag, undo compression and surface the
literal data, and pair the plaintext with the status fixed to not
signed; the signature-verification steps are absent. -/
def decryptNoVerify (sk : SessionKey) (dp : List Packet) :
    Except DecErr (PlainMessage × SigStatus) :=
  match dp with
  | [] => .error .readPacket
  | Packet.symEnc c k contents :: _ =>
    match sk.GetCipherFunc with
    | .error _ => .error .unsupportedCipher
    | .ok dc =>
      match symEncDecrypt dc sk.Key c k contents with
      | .error _ => .error .decryptFailed
      | .ok decrypted =>
        match ReadMessage [] decrypted with
        | .error _ => .error .readMessage
        | .ok md =>
          .ok ({ Data := md.UnverifiedBody,
                 TextType := !md.LiteralData.IsBinary,
                 Filename := md.LiteralData.FileName,
                 Time := md.LiteralData.Time },
               SigStatus.notSigned)
  | Packet.otherPacket _ :: _ => .error .invalidPacketType

/-! ## Observers of the layering of an inner message -/

/-- The bytes carried by the literal-data layer of an inner message. -/
def literalBytes : InnerMessage → Option Bytes
  | .lit _ d => some d
  | .compressed inner => literalBytes inner
  | .signedMsg _ _ inner => literalBytes inner
  | .malformed => none

/-- The bytes covered by the in-line signature layer of an inner
message, when one is present. -/
def signatureCovered : InnerMessage → Option Bytes
  | .signedMsg s _ _ => some s.signedData
  | .compressed inner => signatureCovered inner
  | .lit _ _ => none
  | .malformed => none

/-! ## Registry lemmas -/

/-- Closed form of the registry lookup. -/
theorem lookupAlgo_eq (algo : String) :
    lookupAlgo algo =
      if algo = constants.ThreeDES then some Cipher3DES
      else if algo = constants.TripleDES then some Cipher3DES
      else if algo = constants.CAST5 then some CipherCAST5
      else if algo = constants.AES128 then some CipherAES128
      else if algo = constants.AES192 then some CipherAES192
      else if algo = constants.AES256 then some CipherAES256
      else none := by
  simp only [lookupAlgo, symKeyAlgos, List.lookup, beq_iff_eq]
  repeat' split <;> simp_all

/-- Every cipher identifier in the registry is nonzero. -/
theorem lookupAlgo_ne_zero (algo : String) (cf : CipherFunction)
    (h : lookupAlgo algo = some cf) : cf ≠ 0 := by
  rw [lookupAlgo_eq] at h
  repeat' split at h
  all_goals simp only [Option.some.injEq, reduceCtorEq] at h
  all_goals subst h
  all_goals decide

/-! ## Claims about key generation and the registry -/

/-- Claim C4: for every algorithm name in the fixed supported set,
GenerateSessionKeyAlgo returns a SessionKey whose key length equals the
registry key size for that algorithm and on which checkSize succeeds; for
every name outside the set it fails with the unsupported-algorithm error
and returns no key. -/
theorem C4_generate_key_size (random : Nat → Nat) (algo : String) :
    (∀ cf, lookupAlgo algo = some cf →
      GenerateSessionKeyAlgo random algo =
        .ok { Key := RandomToken random (CipherFunction.KeySize cf), Algo := algo } ∧
      (RandomToken random (CipherFunction.KeySize cf)).length =
        CipherFunction.KeySize cf ∧
      SessionKey.checkSize
        { Key := RandomToken random (CipherFunction.KeySize cf), Algo := algo } =
        .ok ()) ∧
    (lookupAlgo algo = none →
      GenerateSessionKeyAlgo random algo =
        .error "gopenpgp: unknown symmetric key generation algorithm") := by
  constructor
  · intro cf hcf
    refine ⟨?_, ?_, ?_⟩
    · simp [GenerateSessionKeyAlgo, hcf]
    · simp [RandomToken]
    · simp [SessionKey.checkSize, hcf, RandomToken]
  · intro h
    simp [GenerateSessionKeyAlgo, h]

/-- Concrete instance of claim C4: generating an AES-128 key yields a
16-byte key passing checkSize, and an unknown name is rejected. -/
theorem C4_generate_key_size_witness :
    (GenerateSessionKeyAlgo (fun _ => 0) constants.AES128 =
      .ok { Key := RandomToken (fun _ => 0) 16, Algo := constants.AES128 } ∧
     (RandomToken (fun _ => 0) 16).length = 16 ∧
     SessionKey.checkSize { Key := RandomToken (fun _ => 0) 16, Algo := constants.AES128 } = .ok ()) ∧
    GenerateSessionKeyAlgo (fun _ => 0) "rc4" =
      .error "gopenpgp: unknown symmetric key generation algorithm" :=
  ⟨(C4_generate_key_size (fun _ => 0) constants.AES128).1 CipherAES128 rfl,
   (C4_generate_key_size (fun _ => 0) "rc4").2 rfl⟩

/-- Claim C9: a cipher-function identifier that appears nowhere in the
registry is mapped by the total reverse lookup getAlgo to the AES-256
algorithm name; no error is reported. -/
theorem C9_getAlgo_unknown_default (cipher : CipherFunction)
    (h : ∀ kv ∈ symKeyAlgos, kv.2 ≠ cipher) :
    getAlgo cipher = constants.AES256 := by
  have hnone : symKeyAlgos.find? (fun kv => kv.2 = cipher) = none := by
    rw [List.find?_eq_none]
    intro kv hkv
    simpa using h kv hkv
  simp [getAlgo, hnone]

/-- Concrete instance of claim C9: identifier 10 is unknown and maps to
the AES-256 name. -/
theorem C9_getAlgo_unknown_default_witness : getAlgo 10 = constants.AES256 :=
  C9_getAlgo_unknown_default 10 (by decide)

/-- Claim C3 counterexample: the key-size invariant is not enforced at
construction. NewSessionKeyFromToken accepts a one-byte key tagged
AES-256 and returns a SessionKey with exactly that key material and no
error (its return type has no error channel at all); the violation is
only caught later by checkSize. -/
theorem C3_counterexample :
    NewSessionKeyFromToken [0] constants.AES256 =
      { Key := [0], Algo := constants.AES256 } ∧
    SessionKey.checkSize (NewSessionKeyFromToken [0] constants.AES256) =
      .error "wrong session key size" := by
  exact ⟨rfl, rfl⟩

/-- Claim C3 (amended): for a SessionKey whose key length mismatches the
registry size of its algorithm, checkSize fails hard, every Encrypt call
fails hard at cipher setup, every decrypt of a symmetrically encrypted
packet returns no plaintext, and the key material is stored unchanged by
construction, never truncated or padded; construction itself performs no
validation. -/
theorem C3_size_enforced_at_use (sk : SessionKey) (cf : CipherFunction)
    (halgo : lookupAlgo sk.Algo = some cf)
    (hlen : sk.Key.length ≠ CipherFunction.KeySize cf) :
    SessionKey.checkSize sk = .error "wrong session key size" ∧
    (∀ t message, SessionKey.Encrypt sk t message =
      .error "gopenpgp: unable to encrypt") ∧
    (∀ vkr vt c k contents rest,
      (SessionKey.DecryptAndVerify sk (Packet.symEnc c k contents :: rest) vkr vt).1 =
        none) ∧
    NewSessionKeyFromToken sk.Key sk.Algo = sk := by
  have hcf0 : cf ≠ 0 := lookupAlgo_ne_zero sk.Algo cf halgo
  refine ⟨?_, ?_, ?_, ?_⟩
  · simp only [SessionKey.checkSize, halgo]
    rw [if_neg (fun hh => hlen hh.symm)]
  · intro t message
    simp [SessionKey.Encrypt, SessionKey.GetCipherFunc, halgo,
      encryptWithSessionKey, encryptStreamWithSessionKey, Config.Cipher, hcf0, hlen]
  · intro vkr vt c k contents rest
    simp [SessionKey.DecryptAndVerify, decryptStreamWithSessionKey,
      SessionKey.GetCipherFunc, halgo, symEncDecrypt, hlen]
  · cases sk
    rfl

/-- Concrete instance of the amended claim C3, at a one-byte key tagged
AES-256. -/
theorem C3_size_enforced_at_use_witness :
    SessionKey.checkSize { Key := [0], Algo := constants.AES256 } =
      .error "wrong session key size" ∧
    SessionKey.Encrypt { Key := [0], Algo := constants.AES256 } 0
        { Data := [1], TextType := true, Filename := "", Time := 0 } =
      .error "gopenpgp: unable to encrypt" ∧
    (SessionKey.DecryptAndVerify { Key := [0], Algo := constants.AES256 }
        [Packet.symEnc CipherAES256 [0] InnerMessage.malformed] none 0).1 = none := by
  have h := C3_size_enforced_at_use { Key := [0], Algo := constants.AES256 }
    CipherAES256 rfl (by decide)
  exact ⟨h.1, h.2.1 0 { Data := [1], TextType := true, Filename := "", Time := 0 },
    h.2.2.1 none 0 CipherAES256 [0] InnerMessage.malformed []⟩

/-! ## Round trip and decrypt-path claims -/

/-- Claim C1: for every plaintext and every session key whose algorithm
tag is in the registry and whose length matches that algorithm,
decrypting the output of Encrypt with Decrypt under the same key
succeeds and returns a PlainMessage with exactly the original content,
binary flag, filename and modification time (and no error: the
no-signature path reports nothing alongside the plaintext). -/
theorem C1_encrypt_decrypt_round_trip (P : PlainMessage) (K : SessionKey)
    (t : Int) (cf : CipherFunction) (halgo : lookupAlgo K.Algo = some cf)
    (hlen : K.Key.length = CipherFunction.KeySize cf) :
    SessionKey.Encrypt K t P =
      .ok [Packet.symEnc cf K.Key
        (InnerMessage.lit
          { IsBinary := P.IsBinary, FileName := P.Filename, Time := P.Time }
          P.GetBinary)] ∧
    SessionKey.Decrypt K
      [Packet.symEnc cf K.Key
        (InnerMessage.lit
          { IsBinary := P.IsBinary, FileName := P.Filename, Time := P.Time }
          P.GetBinary)] = (some P, none) := by
  have hcf0 : cf ≠ 0 := lookupAlgo_ne_zero K.Algo cf halgo
  constructor
  · simp [SessionKey.Encrypt, SessionKey.GetCipherFunc, halgo,
      encryptWithSessionKey, encryptStreamWithSessionKey, Config.Cipher,
      Config.Compression, hcf0, hlen, EncryptChain.writeAndClose]
  · obtain ⟨data, tt, fn, tm⟩ := P
    simp [SessionKey.Decrypt, SessionKey.DecryptAndVerify,
      decryptStreamWithSessionKey, SessionKey.GetCipherFunc, halgo,
      symEncDecrypt, hlen, ReadMessage, PlainMessage.IsBinary,
      PlainMessage.GetBinary]

/-- Concrete instance of claim C1: an AES-256 key of 32 zero bytes round
trips a two-byte text message with filename and modification time. -/
theorem C1_encrypt_decrypt_round_trip_witness :
    SessionKey.Encrypt { Key := List.replicate 32 0, Algo := constants.AES256 } 5
        { Data := [104, 105], TextType := true, Filename := "test", Time := 7 } =
      .ok [Packet.symEnc CipherAES256 (List.replicate 32 0)
        (InnerMessage.lit { IsBinary := false, FileName := "test", Time := 7 }
          [104, 105])] ∧
    SessionKey.Decrypt { Key := List.replicate 32 0, Algo := constants.AES256 }
        [Packet.symEnc CipherAES256 (List.replicate 32 0)
          (InnerMessage.lit { IsBinary := false, FileName := "test", Time := 7 }
            [104, 105])] =
      (some { Data := [104, 105], TextType := true, Filename := "test", Time := 7 },
       none) :=
  C1_encrypt_decrypt_round_trip
    { Data := [104, 105], TextType := true, Filename := "test", Time := 7 }
    { Key := List.replicate 32 0, Algo := constants.AES256 } 5 CipherAES256
    rfl (by decide)

/-- Claim C2: whenever decryption itself succeeds, DecryptAndVerify
returns the plaintext assembled from the literal-data layer as its first
component, whatever the signature status is, and any error returned
alongside it is a signature-status error, never a decryption error;
whenever decryption fails, no plaintext is returned at all. -/
theorem C2_plaintext_and_status_independent (sk : SessionKey)
    (dp : List Packet) (vkr : Option KeyRing) (vt : Int) :
    (∀ md, decryptStreamWithSessionKey sk dp vkr = .ok md →
      (SessionKey.DecryptAndVerify sk dp vkr vt).1 =
        some { Data := md.UnverifiedBody,
               TextType := !md.LiteralData.IsBinary,
               Filename := md.LiteralData.FileName,
               Time := md.LiteralData.Time } ∧
      (∀ ge, (SessionKey.DecryptAndVerify sk dp vkr vt).2 = some ge →
        ∃ sve, ge = GoError.sigErr sve)) ∧
    (∀ er, decryptStreamWithSessionKey sk dp vkr = .error er →
      SessionKey.DecryptAndVerify sk dp vkr vt = (none, some (.decErr er))) := by
  constructor
  · intro md hmd
    constructor
    · simp [SessionKey.DecryptAndVerify, hmd]
    · intro ge hge
      simp only [SessionKey.DecryptAndVerify, hmd] at hge
      cases vkr with
      | none => simp at hge
      | some kr =>
        cases hv : verifyDetailsSignature md vt with
        | none => simp [hv] at hge
        | some sve =>
          simp only [hv, Option.map_some', Option.some.injEq] at hge
          exact ⟨sve, hge.symm⟩
  · intro er her
    simp [SessionKey.DecryptAndVerify, her]

/-- Concrete instance of claim C2: an unsigned message decrypted with a
verification key ring present yields the plaintext next to a not-signed
status error, and an empty input yields no plaintext and a fatal error. -/
theorem C2_plaintext_and_status_independent_witness :
    (SessionKey.DecryptAndVerify { Key := List.replicate 32 0, Algo := constants.AES256 }
        [Packet.symEnc CipherAES256 (List.replicate 32 0)
          (InnerMessage.lit { IsBinary := true, FileName := "f", Time := 3 } [9])]
        (some { entities := [] }) 0).1 =
      some { Data := [9], TextType := false, Filename := "f", Time := 3 } ∧
    SessionKey.DecryptAndVerify { Key := List.replicate 32 0, Algo := constants.AES256 }
        [] (some { entities := [] }) 0 = (none, some (.decErr .readPacket)) := by
  have h1 := (C2_plaintext_and_status_independent
    { Key := List.replicate 32 0, Algo := constants.AES256 }
    [Packet.symEnc CipherAES256 (List.replicate 32 0)
      (InnerMessage.lit { IsBinary := true, FileName := "f", Time := 3 } [9])]
    (some { entities := [] }) 0).1
    { LiteralData := { IsBinary := true, FileName := "f", Time := 3 },
      UnverifiedBody := [9], sig := none, SignedBy := none } rfl
  have h2 := (C2_plaintext_and_status_independent
    { Key := List.replicate 32 0, Algo := constants.AES256 }
    [] (some { entities := [] }) 0).2 .readPacket rfl
  exact ⟨h1.1, h2⟩

/-- Claim C5: decryption fails with a malformed-packet error and returns
no plaintext when the input has no first packet or its first packet is
not a symmetrically encrypted data packet; a plaintext is ever produced
only when the first packet is a symmetric-encryption packet. -/
theorem C5_first_packet_must_be_symmetric (sk : SessionKey)
    (dp : List Packet) (vkr : Option KeyRing) (vt : Int) :
    (dp = [] →
      SessionKey.DecryptAndVerify sk dp vkr vt =
        (none, some (.decErr .readPacket))) ∧
    (∀ tag rest, dp = Packet.otherPacket tag :: rest →
      SessionKey.DecryptAndVerify sk dp vkr vt =
        (none, some (.decErr .invalidPacketType))) ∧
    (∀ pm, (SessionKey.DecryptAndVerify sk dp vkr vt).1 = some pm →
      ∃ c k contents rest, dp = Packet.symEnc c k contents :: rest) := by
  refine ⟨?_, ?_, ?_⟩
  · intro h
    subst h
    simp [SessionKey.DecryptAndVerify, decryptStreamWithSessionKey]
  · intro tag rest h
    subst h
    simp [SessionKey.DecryptAndVerify, decryptStreamWithSessionKey]
  · intro pm hpm
    match dp with
    | [] => simp [SessionKey.DecryptAndVerify, decryptStreamWithSessionKey] at hpm
    | Packet.otherPacket tag :: rest =>
      simp [SessionKey.DecryptAndVerify, decryptStreamWithSessionKey] at hpm
    | Packet.symEnc c k contents :: rest =>
      exact ⟨c, k, contents, rest, rfl⟩

/-- Concrete instance of claim C5: the empty input and an input starting
with a non-symmetric packet both fail fatally, and a successful decrypt
exhibits a symmetric first packet. -/
theorem C5_first_packet_must_be_symmetric_witness :
    SessionKey.DecryptAndVerify { Key := [], Algo := "" } [] none 0 =
      (none, some (.decErr .readPacket)) ∧
    SessionKey.DecryptAndVerify { Key := [], Algo := "" }
        [Packet.otherPacket 2] none 0 =
      (none, some (.decErr .invalidPacketType)) ∧
    ∃ c k contents rest,
      ([Packet.symEnc CipherAES128 (List.replicate 16 1)
          (InnerMessage.lit { IsBinary := true, FileName := "", Time := 0 } [])] :
        List Packet) = Packet.symEnc c k contents :: rest :=
  ⟨(C5_first_packet_must_be_symmetric { Key := [], Algo := "" } [] none 0).1 rfl,
   (C5_first_packet_must_be_symmetric { Key := [], Algo := "" }
     [Packet.otherPacket 2] none 0).2.1 2 [] rfl,
   (C5_first_packet_must_be_symmetric { Key := List.replicate 16 1, Algo := constants.AES128 }
     [Packet.symEnc CipherAES128 (List.replicate 16 1)
       (InnerMessage.lit { IsBinary := true, FileName := "", Time := 0 } [])] none 0).2.2
     { Data := [], TextType := false, Filename := "", Time := 0 } (by decide)⟩

/-! ## Refinement of the plain decrypt -/

/-- Claim C7: plain Decrypt returns exactly what DecryptAndVerify returns
with no verification key ring and time checking disabled, and both agree
with the independently stated reference decrypt in which the
verification steps are absent and the status is fixed to not signed. -/
theorem C7_decrypt_is_decryptAndVerify_no_ring (sk : SessionKey)
    (dp : List Packet) :
    SessionKey.Decrypt sk dp = SessionKey.DecryptAndVerify sk dp none 0 ∧
    SessionKey.Decrypt sk dp =
      (match decryptNoVerify sk dp with
       | .ok pair => (some pair.1, none)
       | .error e => (none, some (.decErr e))) ∧
    (∀ pm st, decryptNoVerify sk dp = .ok (pm, st) → st = SigStatus.notSigned) := by
  refine ⟨rfl, ?_, ?_⟩
  · match dp with
    | [] => rfl
    | Packet.otherPacket tag :: rest => rfl
    | Packet.symEnc c k contents :: rest =>
      cases hdc : sk.GetCipherFunc with
      | error er =>
        simp [SessionKey.Decrypt, SessionKey.DecryptAndVerify,
          decryptStreamWithSessionKey, decryptNoVerify, hdc]
      | ok dc =>
        cases hdec : symEncDecrypt dc sk.Key c k contents with
        | error er =>
          simp [SessionKey.Decrypt, SessionKey.DecryptAndVerify,
            decryptStreamWithSessionKey, decryptNoVerify, hdc, hdec]
        | ok decrypted =>
          cases hrm : ReadMessage [] decrypted with
          | error er =>
            simp [SessionKey.Decrypt, SessionKey.DecryptAndVerify,
              decryptStreamWithSessionKey, decryptNoVerify, hdc, hdec, hrm]
          | ok md =>
            simp [SessionKey.Decrypt, SessionKey.DecryptAndVerify,
              decryptStreamWithSessionKey, decryptNoVerify, hdc, hdec, hrm]
  · intro pm st h
    unfold decryptNoVerify at h
    repeat' split at h
    all_goals simp_all

/-- Concrete instance of claim C7 at a one-packet message under an
AES-256 key of 32 zero bytes. -/
theorem C7_decrypt_is_decryptAndVerify_no_ring_witness :
    SessionKey.Decrypt { Key := List.replicate 32 0, Algo := constants.AES256 }
        [Packet.symEnc CipherAES256 (List.replicate 32 0)
          (InnerMessage.lit { IsBinary := false, FileName := "w", Time := 1 } [5])] =
      SessionKey.DecryptAndVerify
        { Key := List.replicate 32 0, Algo := constants.AES256 }
        [Packet.symEnc CipherAES256 (List.replicate 32 0)
          (InnerMessage.lit { IsBinary := false, FileName := "w", Time := 1 } [5])]
        none 0 ∧
    SigStatus.notSigned = SigStatus.notSigned := by
  have h := C7_decrypt_is_decryptAndVerify_no_ring
    { Key := List.replicate 32 0, Algo := constants.AES256 }
    [Packet.symEnc CipherAES256 (List.replicate 32 0)
      (InnerMessage.lit { IsBinary := false, FileName := "w", Time := 1 } [5])]
  exact ⟨h.1, (h.2.2 { Data := [5], TextType := true, Filename := "w", Time := 1 }
    SigStatus.notSigned rfl) ▸ rfl⟩

/-! ## Layering of the encrypt writer chain -/

/-- Claim C8: the writer chain layers, outer to inner, symmetric
encryption, then compression when configured, then either the signing
layer wrapping the literal-data layer (signing entity supplied) or the
literal-data layer alone; with signing, the plaintext bytes stream
through the signer before the literal writer, so the produced signature
covers exactly the bytes the literal layer carries, never the compressed
or encrypted stream. -/
theorem C8_writer_chain_layering (msg : PlainMessage) (sk : SessionKey)
    (config : Config) (e : Entity)
    (hlen : sk.Key.length = CipherFunction.KeySize config.Cipher)
    (hpriv : e.hasPrivateKey = true) :
    encryptWithSessionKey msg sk (some e) config =
      .ok [Packet.symEnc config.Cipher sk.Key
        (if config.Compression != 0 then
          InnerMessage.compressed (InnerMessage.signedMsg
            { signerKeyId := e.keyId, creationTime := config.Time,
              signedData := msg.GetBinary } msg.GetBinary
            (InnerMessage.lit
              { IsBinary := msg.IsBinary, FileName := msg.Filename,
                Time := msg.Time } msg.GetBinary))
         else
          InnerMessage.signedMsg
            { signerKeyId := e.keyId, creationTime := config.Time,
              signedData := msg.GetBinary } msg.GetBinary
            (InnerMessage.lit
              { IsBinary := msg.IsBinary, FileName := msg.Filename,
                Time := msg.Time } msg.GetBinary))] ∧
    encryptWithSessionKey msg sk none config =
      .ok [Packet.symEnc config.Cipher sk.Key
        (if config.Compression != 0 then
          InnerMessage.compressed (InnerMessage.lit
            { IsBinary := msg.IsBinary, FileName := msg.Filename,
              Time := msg.Time } msg.GetBinary)
         else
          InnerMessage.lit
            { IsBinary := msg.IsBinary, FileName := msg.Filename,
              Time := msg.Time } msg.GetBinary)] ∧
    (∀ inner, encryptWithSessionKey msg sk (some e) config =
        .ok [Packet.symEnc config.Cipher sk.Key inner] →
      signatureCovered inner = some msg.GetBinary ∧
      literalBytes inner = some msg.GetBinary) := by
  have h1 : encryptWithSessionKey msg sk (some e) config =
      .ok [Packet.symEnc config.Cipher sk.Key
        (if config.Compression != 0 then
          InnerMessage.compressed (InnerMessage.signedMsg
            { signerKeyId := e.keyId, creationTime := config.Time,
              signedData := msg.GetBinary } msg.GetBinary
            (InnerMessage.lit
              { IsBinary := msg.IsBinary, FileName := msg.Filename,
                Time := msg.Time } msg.GetBinary))
         else
          InnerMessage.signedMsg
            { signerKeyId := e.keyId, creationTime := config.Time,
              signedData := msg.GetBinary } msg.GetBinary
            (InnerMessage.lit
              { IsBinary := msg.IsBinary, FileName := msg.Filename,
                Time := msg.Time } msg.GetBinary))] := by
    simp only [encryptWithSessionKey, encryptStreamWithSessionKey, hlen,
      ne_eq, not_true_eq_false, if_false, hpriv, if_true,
      EncryptChain.writeAndClose]
  refine ⟨h1, ?_, ?_⟩
  · simp only [encryptWithSessionKey, encryptStreamWithSessionKey, hlen,
      ne_eq, not_true_eq_false, if_false, EncryptChain.writeAndClose]
  · intro inner hinner
    rw [h1] at hinner
    have : (if config.Compression != 0 then
          InnerMessage.compressed (InnerMessage.signedMsg
            { signerKeyId := e.keyId, creationTime := config.Time,
              signedData := msg.GetBinary } msg.GetBinary
            (InnerMessage.lit
              { IsBinary := msg.IsBinary, FileName := msg.Filename,
                Time := msg.Time } msg.GetBinary))
         else
          InnerMessage.signedMsg
            { signerKeyId := e.keyId, creationTime := config.Time,
              signedData := msg.GetBinary } msg.GetBinary
            (InnerMessage.lit
              { IsBinary := msg.IsBinary, FileName := msg.Filename,
                Time := msg.Time } msg.GetBinary)) = inner := by
      simpa using hinner
    rw [← this]
    split <;> simp [signatureCovered, literalBytes]

/-- Concrete instance of claim C8: with compression configured and a
usable signing entity, the output nests encryption around compression
around the signature around the literal layer, and the signature covers
the two plaintext bytes. -/
theorem C8_writer_chain_layering_witness :
    encryptWithSessionKey { Data := [1, 2], TextType := false, Filename := "n", Time := 4 }
        { Key := List.replicate 32 0, Algo := constants.AES256 }
        (some { keyId := 77, hasPrivateKey := true })
        { Time := 5, DefaultCipher := CipherAES256, DefaultCompressionAlgo := 2 } =
      .ok [Packet.symEnc CipherAES256 (List.replicate 32 0)
        (InnerMessage.compressed (InnerMessage.signedMsg
          { signerKeyId := 77, creationTime := 5, signedData := [1, 2] } [1, 2]
          (InnerMessage.lit { IsBinary := true, FileName := "n", Time := 4 } [1, 2])))] ∧
    signatureCovered (InnerMessage.compressed (InnerMessage.signedMsg
        { signerKeyId := 77, creationTime := 5, signedData := [1, 2] } [1, 2]
        (InnerMessage.lit { IsBinary := true, FileName := "n", Time := 4 } [1, 2]))) =
      some [1, 2] ∧
    literalBytes (InnerMessage.compressed (InnerMessage.signedMsg
        { signerKeyId := 77, creationTime := 5, signedData := [1, 2] } [1, 2]
        (InnerMessage.lit { IsBinary := true, FileName := "n", Time := 4 } [1, 2]))) =
      some [1, 2] := by
  have h := C8_writer_chain_layering
    { Data := [1, 2], TextType := false, Filename := "n", Time := 4 }
    { Key := List.replicate 32 0, Algo := constants.AES256 }
    { Time := 5, DefaultCipher := CipherAES256, DefaultCompressionAlgo := 2 }
    { keyId := 77, hasPrivateKey := true } (by decide) rfl
  have h3 := h.2.2 (InnerMessage.compressed (InnerMessage.signedMsg
    { signerKeyId := 77, creationTime := 5, signedData := [1, 2] } [1, 2]
    (InnerMessage.lit { IsBinary := true, FileName := "n", Time := 4 } [1, 2]))) (by simpa using h.1)
  exact ⟨by simpa using h.1, h3.1, h3.2⟩
/-! ## Canonicalizer equality -/

/-- Dropping a prefix satisfying p from a list extended by one element. -/
theorem dropWhile_append_singleton (p : Char → Bool) (l : List Char) (c : Char) :
    (l ++ [c]).dropWhile p =
      if (l.dropWhile p).isEmpty then (if p c then [] else [c])
      else l.dropWhile p ++ [c] := by
  induction l with
  | nil =>
    simp only [List.nil_append, List.dropWhile, List.isEmpty_nil, if_true]
    cases p c <;> rfl
  | cons a l ih =>
    by_cases hpa : p a
    · simpa [List.dropWhile_cons, hpa] using ih
    · simp [List.dropWhile_cons, hpa]

/-- The structural TrimRight translation agrees with the
reverse-dropWhile-reverse phrasing. -/
theorem trimRightGo_eq (l : List Char) : trimRightGo l = trimRightSpec l := by
  induction l with
  | nil => rfl
  | cons c cs ih =>
    have hrw : ((c :: cs).reverse.dropWhile isTrimChar) =
        if (cs.reverse.dropWhile isTrimChar).isEmpty then
          (if isTrimChar c then [] else [c])
        else cs.reverse.dropWhile isTrimChar ++ [c] := by
      rw [List.reverse_cons, dropWhile_append_singleton]
    unfold trimRightGo
    rw [ih]
    cases hspec : trimRightSpec cs with
    | nil =>
      have hempty : (cs.reverse.dropWhile isTrimChar).isEmpty = true := by
        have := congrArg List.reverse hspec
        simp only [trimRightSpec, List.reverse_reverse, List.reverse_nil] at this
        simp [this]
      show (if isTrimChar c then [] else [c]) = trimRightSpec (c :: cs)
      unfold trimRightSpec
      rw [hrw, if_pos hempty]
      by_cases hc : isTrimChar c
      · simp [hc]
      · simp [hc]
    | cons r rs =>
      have hne : (cs.reverse.dropWhile isTrimChar).isEmpty = false := by
        rcases hd : cs.reverse.dropWhile isTrimChar with _ | ⟨x, xs⟩
        · rw [trimRightSpec, hd] at hspec
          simp at hspec
        · simp
      show c :: r :: rs = trimRightSpec (c :: cs)
      calc c :: r :: rs
          = c :: trimRightSpec cs := by rw [hspec]
        _ = (cs.reverse.dropWhile isTrimChar ++ [c]).reverse := by
            simp [trimRightSpec]
        _ = trimRightSpec (c :: cs) := by
            unfold trimRightSpec
            rw [hrw, if_neg (by simp [hne])]

/-- The structural Split translation agrees with splitOn. -/
theorem splitLF_eq (l : List Char) : splitLF l = l.splitOn '\n' := by
  induction l with
  | nil => simp [splitLF, List.splitOn, List.splitOnP_nil]
  | cons c cs ih =>
    have hne : cs.splitOn '\n' ≠ [] := by
      simp only [List.splitOn]
      exact List.splitOnP_ne_nil _ cs
    unfold splitLF
    rw [ih]
    cases hsp : cs.splitOn '\n' with
    | nil => exact absurd hsp hne
    | cons hd tl =>
      simp only [List.splitOn] at hsp ⊢
      rw [List.splitOnP_cons, hsp]
      by_cases hc : c = '\n'
      · simp [hc]
      · simp [hc, List.modifyHead]

/-- The structural Join translation agrees with intercalate. -/
theorem joinCRLF_eq (ls : List (List Char)) :
    joinCRLF ls = List.intercalate ['\r', '\n'] ls := by
  induction ls with
  | nil => simp [joinCRLF, List.intercalate]
  | cons l ls ih =>
    cases ls with
    | nil => simp [joinCRLF, List.intercalate]
    | cons m ms =>
      show l ++ '\r' :: '\n' :: joinCRLF (m :: ms) = _
      rw [ih]
      simp [List.intercalate]

/-- Claim C6: the canonicalizer translated from the source equals, on
every input text, the three-step reference definition that splits on
line-feed boundaries, strips trailing spaces, tabs and carriage returns
from each line, and rejoins the lines with CRLF. -/
theorem C6_canonicalize_eq_reference (text : List Char) :
    CanonicalizeAndTrim text = canonicalizeSpec text := by
  unfold CanonicalizeAndTrim canonicalizeSpec
  rw [joinCRLF_eq, splitLF_eq]
  congr 1
  exact List.map_congr_left (fun l _ => trimRightGo_eq l)

/-! ## Frame property of token cloning -/

/-- Claim C10: NewSessionKeyFromToken stores a fresh copy of the token
bytes. On the explicit heap, the constructed key lives at a fresh
address distinct from the address of the supplied token, it reads back
as the token contents, and overwriting the caller buffer afterwards
leaves the key material unchanged. -/
theorem C10_token_is_cloned (h : Heap) (a : Nat) (algo : String) (v : Bytes)
    (ha : a < h.length) :
    (NewSessionKeyFromTokenH h a algo).2.KeyAddr ≠ a ∧
    readSlice (NewSessionKeyFromTokenH h a algo).1
      (NewSessionKeyFromTokenH h a algo).2.KeyAddr = readSlice h a ∧
    readSlice (writeSlice (NewSessionKeyFromTokenH h a algo).1 a v)
      (NewSessionKeyFromTokenH h a algo).2.KeyAddr = readSlice h a := by
  have haddr : (NewSessionKeyFromTokenH h a algo).2.KeyAddr = h.length := rfl
  have hheap : (NewSessionKeyFromTokenH h a algo).1 = h ++ [readSlice h a] := rfl
  have hread : (h ++ [readSlice h a])[h.length]? = some (readSlice h a) := by
    rw [List.getElem?_append_right (Nat.le_refl _)]
    simp
  refine ⟨?_, ?_, ?_⟩
  · rw [haddr]
    exact fun hcontra => Nat.lt_irrefl a (hcontra ▸ ha)
  · rw [haddr, hheap, readSlice, List.getD_eq_getElem?_getD, hread]
    rfl
  · rw [haddr, hheap, readSlice, writeSlice, List.getD_eq_getElem?_getD,
      List.getElem?_set_ne (Nat.ne_of_lt ha), hread]
    rfl

/-- Concrete instance of claim C10: on a heap holding one two-byte
token, the key constructed from it still reads as the token after the
caller buffer is overwritten. -/
theorem C10_token_is_cloned_witness :
    (NewSessionKeyFromTokenH [[1, 2]] 0 constants.AES256).2.KeyAddr ≠ 0 ∧
    readSlice (NewSessionKeyFromTokenH [[1, 2]] 0 constants.AES256).1
      (NewSessionKeyFromTokenH [[1, 2]] 0 constants.AES256).2.KeyAddr = [1, 2] ∧
    readSlice (writeSlice (NewSessionKeyFromTokenH [[1, 2]] 0 constants.AES256).1 0 [9, 9])
      (NewSessionKeyFromTokenH [[1, 2]] 0 constants.AES256).2.KeyAddr = [1, 2] :=
  C10_token_is_cloned [[1, 2]] 0 constants.AES256 [9, 9] (by decide)

end Gopenpgp
